import Mathlib

/-!
Verification of the IND-CPA core in `src/indcpa.rs` (kyberclone).

The file shallow-embeds the functions of `src/indcpa.rs` over `Nat`/`Int`
and lists.  The repository ships only `indcpa.rs`; the modules it pulls in
(`params`, `poly`, `polyvec`, `symmetric`, ...) are absent, so the
parameter constants and the external primitive interfaces are modelled
from the spec (each such definition says so in its doc comment).  The
source file is a transcription of C reference code into Rust-like syntax
(C-style pointer doc comments, pointer arithmetic such as `coeffs + ctr`);
its 16-bit expression `buf[pos] | (buf[pos+1] << 8)` is embedded with the
operands promoted to full width before the shift, as in the C original it
transcribes, and machine arithmetic is embedded on `Nat` with the
no-overflow/no-underflow facts proved where they matter.
-/

namespace Kyber

/-- Modelled from the spec: the prime modulus Q of the coefficient ring
(`params.rs` is not under `src/`).  The Kyber-family value 3329 is the one
consistent with the code of `rej_uniform` and `gen_matrix`: the acceptance
threshold `19*Q` must fit in a `u16` with `19 = floor(2^16 / Q)`, the
reduction shifts by 12 bits, and the comment in `gen_matrix` expects 530
bytes for one polynomial, which is `2 * 256 / (19 * 3329 / 2^16)`. -/
def KYBER_Q : Nat := 3329

/-- Modelled from the spec: the polynomial degree N (number of coefficients
per polynomial); 256 per the 530-expected-bytes comment in `gen_matrix`. -/
def KYBER_N : Nat := 256

/-- Modelled from the spec: the module rank K (number of polynomials per
vector).  The spec leaves the security level open; the claims under proof
are insensitive to the choice, the smallest standard rank 2 is used. -/
def KYBER_K : Nat := 2

/-- Modelled from the spec: seed length in bytes (symmetric-key length). -/
def KYBER_SYMBYTES : Nat := 32

/-- Modelled from the spec: byte length of one squeezed XOF output block. -/
def XOF_BLOCKBYTES : Nat := 168

/-- Modelled from the spec: byte length of one serialized polynomial
(N coefficients at 12 bits each). -/
def KYBER_POLYBYTES : Nat := 384

/-- Modelled from the spec: byte length of a serialized polynomial vector. -/
def KYBER_POLYVECBYTES : Nat := KYBER_K * KYBER_POLYBYTES

/-- Modelled from the spec: byte length of a compressed polynomial vector. -/
def KYBER_POLYVECCOMPRESSEDBYTES : Nat := KYBER_K * 320

/-- A polynomial: the list of its (i16) coefficients. -/
abbrev Poly := List Int

/-- A polynomial vector: K polynomials. -/
abbrev Polyvec := List Poly

/-- Modelled from the spec: `Poly::new()`, the zero-initialized polynomial
of the external `poly` module. -/
def Poly.new : Poly := List.replicate KYBER_N 0

/-- Modelled from the spec: `Polyvec::new()`, K zero polynomials. -/
def Polyvec.new : Polyvec := List.replicate KYBER_K Poly.new

/-- The 16-bit value `rej_uniform` assembles from the byte pair at `pos`
(source line 130, `(buf[pos] | (buf[pos+1] << 8)) as u16`): the operands
are promoted before the shift, as in the C code this file transcribes,
and the result is below 2^16 for byte inputs, so the final cast is the
identity and plain `Nat` arithmetic is exact. -/
def leVal (b0 b1 : Nat) : Nat := b0 ||| (b1 <<< 8)

/-- The reduction applied to an accepted value (source line 135,
`val -= (val >> 12) * KYBER_Q`).  `Nat` truncated subtraction agrees with
the u16 subtraction because the subtrahend never exceeds `val`
(theorem `reduceQ_no_underflow`). -/
def reduceQ (val : Nat) : Nat := val - (val >>> 12) * KYBER_Q

/-- The `while` loop of `rej_uniform` (source lines 128-138).  The source
iterates `while ctr < len && pos + 2 <= buflen` advancing `pos` by 2; to
make the recursion structural the loop is indexed by the number
`rem = buflen - pos` of unread bytes, and the read position is recovered
as `pos = buflen - rem`.  Note the source never increments `ctr`: the body
stores `r[ctr] = val` without `ctr += 1`, and the embedding reproduces
that faithfully. -/
def rej_uniform_loop (len : Nat) (buf : List Nat) (buflen : Nat) :
    List Int → Nat → Nat → List Int × Nat
  | r, ctr, 0 => (r, ctr)
  | r, ctr, 1 => (r, ctr)
  | r, ctr, rem + 2 =>
    if ctr < len then
      if leVal (buf.getD (buflen - (rem + 2)) 0) (buf.getD (buflen - (rem + 2) + 1) 0)
          < 19 * KYBER_Q then
        rej_uniform_loop len buf buflen
          (r.set ctr (Int.ofNat (reduceQ
            (leVal (buf.getD (buflen - (rem + 2)) 0) (buf.getD (buflen - (rem + 2) + 1) 0)))))
          ctr rem
      else
        rej_uniform_loop len buf buflen r ctr rem
    else (r, ctr)

/-- `rej_uniform` (source lines 123-140): runs the sampling loop starting
from `ctr = 0`, `pos = 0` (i.e. `rem = buflen`) and returns the final
output buffer together with the returned counter `ctr`. -/
def rej_uniform (r : List Int) (len : Nat) (buf : List Nat) (buflen : Nat) :
    List Int × Nat :=
  rej_uniform_loop len buf buflen r 0 buflen

/-- `maxnblocks` of `gen_matrix` (source line 169):
`(530 + XOF_BLOCKBYTES) / XOF_BLOCKBYTES`. -/
def maxnblocks : Nat := (530 + XOF_BLOCKBYTES) / XOF_BLOCKBYTES

/-- The bytes obtained by squeezing `nblocks` consecutive XOF blocks
starting at block index `start`; `stream b` is the content of the b-th
block of the absorbed XOF state (the external XOF is deterministic, so
the whole squeezed stream is a function of the absorbed state). -/
def squeezeBlocks (stream : Nat → List Nat) (start nblocks : Nat) : List Nat :=
  (List.range nblocks).flatMap (fun b => stream (start + b))

/-- The inner `while ctr < KYBER_N` loop of `gen_matrix` (source lines
185-189): squeeze one more block, run `rej_uniform` on it writing at
offset `ctr` (the source pointer arithmetic `coeffs + ctr` becomes
drop/take), and add the returned count to `ctr`.  `fuel` bounds the
number of iterations observed: `some` is returned exactly when the
source loop exits within `fuel` iterations. -/
def genEntryLoopFuel (stream : Nat → List Nat) :
    List Int → Nat → Nat → Nat → Option (List Int)
  | coeffs, ctr, _, 0 =>
    if ctr < KYBER_N then none else some coeffs
  | coeffs, ctr, blockIdx, fuel + 1 =>
    if ctr < KYBER_N then
      let buf := squeezeBlocks stream blockIdx 1
      let res := rej_uniform (coeffs.drop ctr) (KYBER_N - ctr) buf XOF_BLOCKBYTES
      genEntryLoopFuel stream (coeffs.take ctr ++ res.1) (ctr + res.2) (blockIdx + 1) fuel
    else some coeffs

/-- One matrix entry of `gen_matrix` (source lines 182-189): squeeze
`maxnblocks` blocks, run `rej_uniform` for up to `KYBER_N` coefficients,
then enter the squeeze-one-more-block loop.  The coefficients start from
the (uninitialized, modelled as zero) polynomial of the output matrix. -/
def genEntry (stream : Nat → List Nat) (fuel : Nat) : Option (List Int) :=
  let buf := squeezeBlocks stream 0 maxnblocks
  let res := rej_uniform Poly.new KYBER_N buf (maxnblocks * XOF_BLOCKBYTES)
  genEntryLoopFuel stream res.1 res.2 maxnblocks fuel

/-- The coordinate pair `gen_matrix` absorbs into the XOF when processing
entry `(i, j)` of the K-by-K grid, `i` the outer (row) index and `j` the
inner (column) index (source lines 176-181): `(i, j)` when `transposed`
and `(j, i)` otherwise. -/
def xofCoords (transposed : Bool) (i j : Nat) : Nat × Nat :=
  if transposed then (i, j) else (j, i)

/-- The trace of absorb calls of `gen_matrix` (source lines 174-181): for
every entry `(i, j)` of the K-by-K grid in iteration order, the record
`(i, j, coords)` where `coords` is the absorbed coordinate pair. -/
def genMatrixAbsorbs (transposed : Bool) : List (Nat × Nat × Nat × Nat) :=
  (List.range KYBER_K).flatMap (fun i =>
    (List.range KYBER_K).map (fun j => (i, j, xofCoords transposed i j)))

/-- The whole of `gen_matrix` (source lines 166-192) as a fueled
computation: `xof c` is the squeezed block stream of the state obtained
by absorbing the seed with coordinate pair `c` (the seed is fixed inside
`xof`), and every entry must complete its sampling loop within `fuel`
iterations for a matrix to be produced. -/
def genMatrixFueled (xof : Nat × Nat → Nat → List Nat) (transposed : Bool)
    (fuel : Nat) : Option (List (List (List Int))) :=
  (List.range KYBER_K).mapM (fun i =>
    (List.range KYBER_K).mapM (fun j =>
      genEntry (xof (xofCoords transposed i j)) fuel))

/-- The noise-sampling phase of `indcpa_enc` (source lines 257-274):
`sp`, `ep`, `epp` start zero-initialized; the first `for` loop samples
`sp.vec[i]` with nonces `0..K-1`, the second `for` loop samples
`sp.vec[i]` AGAIN with nonces `K..2K-1` (the source writes `sp` in both
loops); `ep` and `epp` are never written.  Returns `(sp, ep, epp)` as
they stand when the additions of source lines 288-290 consume them. -/
def indcpa_enc_noise (getnoise : List Nat → Nat → Poly) (coins : List Nat) :
    Polyvec × Polyvec × Poly :=
  let sp := Polyvec.new
  let ep := Polyvec.new
  let epp := Poly.new
  let sp := (List.range KYBER_K).foldl (fun v i => v.set i (getnoise coins i)) sp
  let sp := (List.range KYBER_K).foldl (fun v i => v.set i (getnoise coins (KYBER_K + i))) sp
  (sp, ep, epp)

/-- A concrete instantiation of the external nonce-indexed noise primitive
(spec section 6), used to exhibit the nonce misassignment of
`indcpa_enc`: the sampled polynomial is constantly the nonce, so samples
under different nonces are distinct. -/
def demoNoise (_seed : List Nat) (nonce : Nat) : Poly :=
  List.replicate KYBER_N (Int.ofNat nonce)

/-- A concrete all-zero coin string of the fixed length. -/
def coins0 : List Nat := List.replicate KYBER_SYMBYTES 0

/-- The effect of `polyvec_tobytes(r, pk)` on the output buffer `r`
(spec section 6: the external vector codec writes its fixed-length
encoding over the front of `r`, leaving the rest of `r` unchanged). -/
def polyvec_tobytes_write (tobytes : Polyvec → List Nat) (r : List Nat)
    (pk : Polyvec) : List Nat :=
  tobytes pk ++ r.drop (tobytes pk).length

/-- `pack_pk` (source lines 21-27): serialize the vector into the front of
`r`, then copy the seed into `r[KYBER_POLYVECBYTES..]` byte by byte. -/
def pack_pk (tobytes : Polyvec → List Nat) (r : List Nat) (pk : Polyvec)
    (seed : List Nat) : List Nat :=
  let r := polyvec_tobytes_write tobytes r pk
  (List.range KYBER_SYMBYTES).foldl
    (fun acc i => acc.set (i + KYBER_POLYVECBYTES) (seed.getD i 0)) r

/-- `unpack_pk` (source lines 39-46): decode the vector from the packed
bytes and read the seed out of `packedpk[KYBER_POLYVECBYTES..]`. -/
def unpack_pk (frombytes : List Nat → Polyvec) (packedpk : List Nat) :
    Polyvec × List Nat :=
  (frombytes packedpk,
   (List.range KYBER_SYMBYTES).map (fun i => packedpk.getD (i + KYBER_POLYVECBYTES) 0))

/-- `pack_sk` (source lines 56-59): pass-through to the vector codec. -/
def pack_sk (tobytes : Polyvec → List Nat) (r : List Nat) (sk : Polyvec) :
    List Nat :=
  polyvec_tobytes_write tobytes r sk

/-- `unpack_sk` (source lines 70-73): pass-through to the vector codec. -/
def unpack_sk (frombytes : List Nat → Polyvec) (packedsk : List Nat) : Polyvec :=
  frombytes packedsk

/-- `unpack_ciphertext` (source lines 104-108): decompress the vector from
the first `KYBER_POLYVECCOMPRESSEDBYTES` bytes and the polynomial from
the rest. -/
def unpack_ciphertext (pvdec : List Nat → Polyvec) (pdec : List Nat → Poly)
    (c : List Nat) : Polyvec × Poly :=
  (pvdec (c.take KYBER_POLYVECCOMPRESSEDBYTES),
   pdec (c.drop KYBER_POLYVECCOMPRESSEDBYTES))

/-- `indcpa_dec` (source lines 308-324), sequenced exactly as the source
statements over the external primitives: unpack ciphertext and secret
key, transform `bp` to NTT domain, pointwise-accumulate `skpv` with `bp`,
inverse transform, subtract the result from `v`, reduce, decode.  The
function is total: it always returns a message. -/
def indcpa_dec (pvdec : List Nat → Polyvec) (pdec : List Nat → Poly)
    (polyvec_frombytes : List Nat → Polyvec) (polyvec_ntt : Polyvec → Polyvec)
    (polyvec_pointwise_acc : Polyvec → Polyvec → Poly) (poly_invntt : Poly → Poly)
    (poly_sub : Poly → Poly → Poly) (poly_reduce : Poly → Poly)
    (poly_tomsg : Poly → List Nat) (c sk : List Nat) : List Nat :=
  let bv := unpack_ciphertext pvdec pdec c
  let bp := bv.1
  let v := bv.2
  let skpv := unpack_sk polyvec_frombytes sk
  let bp := polyvec_ntt bp
  let mp := polyvec_pointwise_acc skpv bp
  let mp := poly_invntt mp
  let mp := poly_sub v mp
  let mp := poly_reduce mp
  poly_tomsg mp

/-- Modelled from the spec: decryption as the spec words it (section 4.6):
`m_poly` is the NTT-domain pointwise accumulation of the secret vector
with the unpacked `b`, converted back to standard domain; the result of
subtracting `m_poly` from the unpacked `v` is reduced and decoded into
the message. -/
def indcpa_dec_spec (pvdec : List Nat → Polyvec) (pdec : List Nat → Poly)
    (polyvec_frombytes : List Nat → Polyvec) (polyvec_ntt : Polyvec → Polyvec)
    (polyvec_pointwise_acc : Polyvec → Polyvec → Poly) (poly_invntt : Poly → Poly)
    (poly_sub : Poly → Poly → Poly) (poly_reduce : Poly → Poly)
    (poly_tomsg : Poly → List Nat) (c sk : List Nat) : List Nat :=
  poly_tomsg (poly_reduce (poly_sub
    (pdec (c.drop KYBER_POLYVECCOMPRESSEDBYTES))
    (poly_invntt (polyvec_pointwise_acc
      (polyvec_frombytes sk)
      (polyvec_ntt (pvdec (c.take KYBER_POLYVECCOMPRESSEDBYTES)))))))

/-- A concrete instantiation of the external vector codec
(spec section 6: a bijective mapping between a vector and a fixed-length
byte string), used to witness the round-trip theorem: the vector is
encoded into the first byte slot and padded to the fixed length. -/
def demoTobytes (v : Polyvec) : List Nat :=
  Encodable.encode v :: List.replicate 767 0

/-- The decoder matching `demoTobytes`. -/
def demoFrombytes (bs : List Nat) : Polyvec :=
  (Encodable.decode (bs.headD 0)).getD []

/-- Helper: the loop of `rej_uniform` returns its counter unchanged — the
source body never increments `ctr`. -/
theorem rej_uniform_loop_snd (len : Nat) (buf : List Nat) (buflen : Nat) :
    ∀ (rem : Nat) (r : List Int) (ctr : Nat),
      (rej_uniform_loop len buf buflen r ctr rem).2 = ctr := by
  intro rem
  induction rem using Nat.strong_induction_on with
  | _ rem ih =>
    match rem with
    | 0 => intro r ctr; rfl
    | 1 => intro r ctr; rfl
    | rem + 2 =>
      intro r ctr
      simp only [rej_uniform_loop]
      split
      · split
        · exact ih rem (by omega) _ _
        · exact ih rem (by omega) _ _
      · rfl

/-- Helper: `rej_uniform` always returns the counter 0. -/
theorem rej_uniform_snd (r : List Int) (len : Nat) (buf : List Nat) (buflen : Nat) :
    (rej_uniform r len buf buflen).2 = 0 :=
  rej_uniform_loop_snd len buf buflen buflen r 0

/-- Helper: the assembled 16-bit value is the little-endian reading of the
byte pair. -/
theorem leVal_eq (b0 b1 : Nat) (h0 : b0 < 256) : leVal b0 b1 = b0 + 256 * b1 := by
  unfold leVal
  rw [Nat.shiftLeft_eq, Nat.or_comm, mul_comm b1 (2 ^ 8),
      ← Nat.mul_add_lt_is_or (by norm_num at h0 ⊢; omega) b1]
  omega

/-- Helper: the inner loop of `gen_matrix` never completes once entered
with fewer than `KYBER_N` accepted coefficients, because `rej_uniform`
contributes 0 to the counter on every iteration. -/
theorem genEntryLoopFuel_none (stream : Nat → List Nat) :
    ∀ (fuel : Nat) (coeffs : List Int) (ctr blockIdx : Nat), ctr < KYBER_N →
      genEntryLoopFuel stream coeffs ctr blockIdx fuel = none := by
  intro fuel
  induction fuel with
  | zero =>
    intro coeffs ctr blockIdx h
    simp [genEntryLoopFuel, h]
  | succ fuel ih =>
    intro coeffs ctr blockIdx h
    simp only [genEntryLoopFuel]
    rw [if_pos h]
    exact ih _ _ _ (by rw [rej_uniform_snd]; omega)

/-- Helper: no amount of fuel lets a `gen_matrix` entry complete. -/
theorem genEntry_none (stream : Nat → List Nat) (fuel : Nat) :
    genEntry stream fuel = none := by
  unfold genEntry
  exact genEntryLoopFuel_none stream fuel _ _ _
    (by rw [rej_uniform_snd]; norm_num [KYBER_N])

/-- Helper: a `for`-loop that stores `s[i]` at offset `off + i` for
`i < n` overwrites the corresponding segment of the buffer and leaves the
rest unchanged. -/
theorem foldl_set_range (s : List Nat) (off : Nat) :
    ∀ (n : Nat) (r : List Nat), off + n ≤ r.length → n ≤ s.length →
      (List.range n).foldl (fun acc i => acc.set (i + off) (s.getD i 0)) r
        = r.take off ++ s.take n ++ r.drop (off + n) := by
  intro n
  induction n with
  | zero =>
    intro r _ _
    simp
  | succ n ih =>
    intro r h1 h2
    rw [List.range_succ, List.foldl_append, ih r (by omega) (by omega)]
    simp only [List.foldl_cons, List.foldl_nil]
    have hto : (r.take off).length = off := by
      rw [List.length_take]; omega
    have htn : (s.take n).length = n := by
      rw [List.length_take]; omega
    have hlen2 : (List.take off r ++ List.take n s).length = off + n := by
      simp [hto, htn]
    rw [List.set_append_right _ _ (by rw [hlen2]; omega), hlen2]
    have hidx : n + off - (off + n) = 0 := by omega
    rw [hidx, List.drop_eq_getElem_cons (by omega : off + n < r.length),
        List.set_cons_zero]
    have hgd : s.getD n 0 = s[n] := by
      rw [List.getD_eq_getElem?_getD, List.getElem?_eq_getElem (by omega : n < s.length)]
      rfl
    have hts : List.take (n + 1) s = List.take n s ++ [s.getD n 0] := by
      rw [hgd, List.take_succ, List.getElem?_eq_getElem (by omega : n < s.length),
          Option.toList_some]
    rw [hts]
    simp only [List.append_assoc, List.singleton_append, Nat.add_assoc]

/-- Helper: reading a length-`n` list back out of itself entry by entry
reproduces the list. -/
theorem map_getD_range (s : List Nat) (n : Nat) (h : s.length = n) :
    (List.range n).map (fun i => s.getD i 0) = s := by
  apply List.ext_getElem
  · simp [h]
  · intro i h1 h2
    simp [List.getD_eq_getElem?_getD, List.getElem?_eq_getElem h2]

/-- Helper: `pack_pk` on exactly sized buffers produces the codec output
followed by the seed. -/
theorem pack_pk_eq (tobytes : Polyvec → List Nat)
    (hlen : ∀ v, (tobytes v).length = KYBER_POLYVECBYTES) (v : Polyvec)
    (s r0 : List Nat) (hs : s.length = KYBER_SYMBYTES)
    (hr : r0.length = KYBER_POLYVECBYTES + KYBER_SYMBYTES) :
    pack_pk tobytes r0 v s = tobytes v ++ s := by
  unfold pack_pk polyvec_tobytes_write
  rw [foldl_set_range s KYBER_POLYVECBYTES KYBER_SYMBYTES _
    (by simp [hlen, hr]) (by omega)]
  rw [List.take_left' (hlen v), List.drop_eq_nil_of_le (by simp [hlen, hr]),
      List.append_nil, ← hs, List.take_length]

/-- Helper: `pack_sk` on an exactly sized buffer is the codec output. -/
theorem pack_sk_eq (tobytes : Polyvec → List Nat)
    (hlen : ∀ v, (tobytes v).length = KYBER_POLYVECBYTES) (v : Polyvec)
    (r0 : List Nat) (hr : r0.length = KYBER_POLYVECBYTES) :
    pack_sk tobytes r0 v = tobytes v := by
  unfold pack_sk polyvec_tobytes_write
  rw [List.drop_eq_nil_of_le (by simp [hlen, hr]), List.append_nil]

/-- C1 (code-bug evidence): `rej_uniform` always returns the counter 0,
because the source body stores `r[ctr] = val` without ever incrementing
`ctr`; on the concrete input `r = [7]`, `len = 1`, `buf = [0,0,0,0]`,
`buflen = 4` it accepts and stores samples (overwriting `r[0]`) and scans
the whole buffer, yet returns 0 instead of stopping after the first
accepted sample and returning 1 as the claim states. -/
theorem rej_uniform_never_counts :
    rej_uniform [7] 1 [0, 0, 0, 0] 4 = ([0], 0) ∧
      ∀ (r : List Int) (len : Nat) (buf : List Nat) (buflen : Nat),
        (rej_uniform r len buf buflen).2 = 0 :=
  ⟨by decide, fun r len buf buflen => rej_uniform_snd r len buf buflen⟩

/-- C10 (code-bug evidence): with `r = [7]`, `len = 1`, `buf = [0,0]`,
`buflen = 2`, `rej_uniform` returns the count 0 yet writes `r[0]`: the
write index 0 is not strictly below the returned count, and the entry at
index 0 (an index not below the returned count) does not retain its prior
value 7. -/
theorem rej_uniform_overwrites_surviving_index :
    rej_uniform [7] 1 [0, 0] 2 = ([0], 0) ∧ (0 : Int) ≠ 7 :=
  ⟨by decide, by decide⟩

/-- C2 counterexample: the byte pair `(0xA0, 0x0F)` reads as the 16-bit
value 4000, passes the acceptance test `4000 < 19*Q`, and the reduction
`val -= (val >> 12)*Q` leaves it at 4000, which `rej_uniform` stores into
the output slice; 4000 is not below `KYBER_Q = 3329`, refuting the claim
that every stored value lies in `[0, Q)`. -/
theorem rej_uniform_range_counterexample :
    (rej_uniform [0] 1 [160, 15] 2).1 = [(4000 : Int)] ∧ ¬ (4000 < KYBER_Q) :=
  ⟨by decide, by decide⟩

/-- C2 (amended): for every byte pair the loop of `rej_uniform` examines,
it assembles the little-endian 16-bit value `b0 + 256 * b1`, stores its
reduction at index `ctr` exactly when the value is strictly below
`19 * KYBER_Q` (and stores nothing otherwise), and the reduced value is
congruent to the raw value modulo `KYBER_Q` and lies in `[0, 15601)` —
but not necessarily in `[0, KYBER_Q)`. -/
theorem rej_uniform_pair_step (b0 b1 len buflen ctr rem : Nat) (buf : List Nat)
    (r : List Int) (h0 : b0 < 256) (h1 : b1 < 256) (hctr : ctr < len)
    (hb0 : buf.getD (buflen - (rem + 2)) 0 = b0)
    (hb1 : buf.getD (buflen - (rem + 2) + 1) 0 = b1) :
    leVal b0 b1 = b0 + 256 * b1 ∧
      rej_uniform_loop len buf buflen r ctr (rem + 2) =
        (if leVal b0 b1 < 19 * KYBER_Q then
          rej_uniform_loop len buf buflen
            (r.set ctr (Int.ofNat (reduceQ (leVal b0 b1)))) ctr rem
        else rej_uniform_loop len buf buflen r ctr rem) ∧
      reduceQ (leVal b0 b1) % KYBER_Q = leVal b0 b1 % KYBER_Q ∧
      reduceQ (leVal b0 b1) < 15601 := by
  have hv := leVal_eq b0 b1 h0
  have hsh : leVal b0 b1 >>> 12 = leVal b0 b1 / 4096 := by
    rw [Nat.shiftRight_eq_div_pow]
  refine ⟨hv, ?_, ?_, ?_⟩
  · simp only [rej_uniform_loop, hb0, hb1]
    rw [if_pos hctr]
  · simp only [reduceQ, KYBER_Q, hsh, hv]
    omega
  · simp only [reduceQ, KYBER_Q, hsh, hv]
    omega

/-- Witness for the amended C2 theorem at the concrete accepted pair
`(160, 15)` (value 4000) in the call with `len = 1`, `buf = [160, 15]`,
`buflen = 2`, `ctr = 0`, `rem = 0`. -/
theorem rej_uniform_pair_step_witness :
    (160 : Nat) < 256 ∧ (15 : Nat) < 256 ∧ (0 : Nat) < 1 ∧
      (leVal 160 15 = 160 + 256 * 15 ∧
        rej_uniform_loop 1 [160, 15] 2 [0] 0 2 =
          (if leVal 160 15 < 19 * KYBER_Q then
            rej_uniform_loop 1 [160, 15] 2
              ([0].set 0 (Int.ofNat (reduceQ (leVal 160 15)))) 0 0
          else rej_uniform_loop 1 [160, 15] 2 [0] 0 0) ∧
        reduceQ (leVal 160 15) % KYBER_Q = leVal 160 15 % KYBER_Q ∧
        reduceQ (leVal 160 15) < 15601) :=
  ⟨by decide, by decide, by decide,
    rej_uniform_pair_step 160 15 1 2 0 0 [160, 15] [0] (by decide) (by decide)
      (by decide) (by decide) (by decide)⟩

/-- C9: for every value that passes the acceptance test `val < 19*Q`, the
subtrahend `(val >> 12) * Q` of the reduction never exceeds `val`, so the
unsigned 16-bit subtraction in `reduceQ` (the body of `rej_uniform`)
never underflows and the `Nat` truncated subtraction is exact. -/
theorem reduceQ_no_underflow (val : Nat) (_h : val < 19 * KYBER_Q) :
    (val >>> 12) * KYBER_Q ≤ val ∧ reduceQ val + (val >>> 12) * KYBER_Q = val := by
  have hsh : val >>> 12 = val / 4096 := by
    rw [Nat.shiftRight_eq_div_pow]
  simp only [reduceQ, KYBER_Q, hsh]
  omega

/-- Witness for C9 at the largest accepted value 63250. -/
theorem reduceQ_no_underflow_witness :
    63250 < 19 * KYBER_Q ∧
      ((63250 >>> 12) * KYBER_Q ≤ 63250 ∧
        reduceQ 63250 + (63250 >>> 12) * KYBER_Q = 63250) :=
  ⟨by decide, reduceQ_no_underflow 63250 (by decide)⟩

/-- C3 (code-bug evidence): no amount of fuel lets a `gen_matrix` entry
complete its sampling loop, whatever the squeezed XOF stream — in
particular for streams with infinitely many acceptable byte pairs, such
as the all-zero stream.  The first `rej_uniform` call returns 0, and each
iteration of the squeeze-one-more-block loop adds `rej_uniform`'s return
value 0 to `ctr`, so `ctr` stays 0 < `KYBER_N` forever. -/
theorem gen_matrix_entry_diverges (stream : Nat → List Nat) (fuel : Nat) :
    genEntry stream fuel = none :=
  genEntry_none stream fuel

/-- C6 (code-bug evidence): `gen_matrix` produces no matrix for any XOF,
either flag and any fuel, because every entry diverges; in particular no
pair of matrices exists whose entries the claimed transpose relation
could compare. -/
theorem gen_matrix_no_output (xof : Nat × Nat → Nat → List Nat)
    (transposed : Bool) (fuel : Nat) :
    genMatrixFueled xof transposed fuel = none := by
  unfold genMatrixFueled
  have h2 : List.range KYBER_K = [0, 1] := rfl
  rw [h2]
  simp only [genEntry_none]
  rfl

/-- C5 counterexample: when `transposed` is false, the absorb performed
for entry `(row, column) = (0, 1)` uses the coordinate pair `(1, 0)` —
`(column, row)` — and the record claimed by the spec, coordinates in the
order `(row, column) = (0, 1)`, does not occur in the absorb trace. -/
theorem gen_matrix_absorb_order_counterexample :
    xofCoords false 0 1 = (1, 0) ∧
      ((0 : Nat), (1 : Nat), (0 : Nat), (1 : Nat)) ∉ genMatrixAbsorbs false :=
  ⟨rfl, by decide⟩

/-- C5 (amended): for every entry `(i, j)` of the K-by-K grid,
`gen_matrix` absorbs the seed with the coordinates in the order
`(column, row) = (j, i)` when `transposed` is false (building A), and in
the order `(row, column) = (i, j)` when `transposed` is true. -/
theorem gen_matrix_absorb_order (i j : Nat) (hi : i < KYBER_K) (hj : j < KYBER_K) :
    (i, j, j, i) ∈ genMatrixAbsorbs false ∧ (i, j, i, j) ∈ genMatrixAbsorbs true :=
  ⟨List.mem_flatMap.mpr ⟨i, List.mem_range.mpr hi,
      List.mem_map.mpr ⟨j, List.mem_range.mpr hj, rfl⟩⟩,
    List.mem_flatMap.mpr ⟨i, List.mem_range.mpr hi,
      List.mem_map.mpr ⟨j, List.mem_range.mpr hj, rfl⟩⟩⟩

/-- Witness for the amended C5 theorem at entry `(0, 1)`. -/
theorem gen_matrix_absorb_order_witness :
    (0 : Nat) < KYBER_K ∧ (1 : Nat) < KYBER_K ∧
      (((0 : Nat), (1 : Nat), (1 : Nat), (0 : Nat)) ∈ genMatrixAbsorbs false ∧
        ((0 : Nat), (1 : Nat), (0 : Nat), (1 : Nat)) ∈ genMatrixAbsorbs true) :=
  ⟨by decide, by decide, gen_matrix_absorb_order 0 1 (by decide) (by decide)⟩

/-- C4 (code-bug evidence): in the noise phase of `indcpa_enc`, run with
the nonce-revealing noise primitive `demoNoise` and all-zero coins, the
vector `sp` (the claimed `r`) ends up holding the samples drawn with
nonces `K..2K-1` — the second loop overwrites the nonce-`0..K-1` samples
— and the error terms `ep` (the claimed `e1`) and `epp` (the claimed
`e2`) are never populated: they are still the zero-initialized values
when the additions of source lines 288-290 consume them.  The final
conjunct shows the overwriting is observable: the nonce-`K` sample
differs from the nonce-`0` sample. -/
theorem indcpa_enc_noise_misassigned :
    indcpa_enc_noise demoNoise coins0 =
      ([demoNoise coins0 KYBER_K, demoNoise coins0 (KYBER_K + 1)],
        Polyvec.new, Poly.new) ∧
      demoNoise coins0 KYBER_K ≠ demoNoise coins0 0 :=
  ⟨rfl, by decide⟩

/-- C7: assuming the external vector byte-codec is a round-tripping pair
of fixed output length (the claim's hypothesis) and the buffers have
their exact parameter-derived sizes, `unpack_pk` recovers exactly the
vector and seed packed by `pack_pk`, and `unpack_sk` recovers exactly the
vector packed by `pack_sk`. -/
theorem pack_unpack_roundtrips (tobytes : Polyvec → List Nat)
    (frombytes : List Nat → Polyvec)
    (hlen : ∀ v, (tobytes v).length = KYBER_POLYVECBYTES)
    (hinv : ∀ (v : Polyvec) (rest : List Nat), frombytes (tobytes v ++ rest) = v)
    (v : Polyvec) (s r0 rsk : List Nat) (hs : s.length = KYBER_SYMBYTES)
    (hr : r0.length = KYBER_POLYVECBYTES + KYBER_SYMBYTES)
    (hrsk : rsk.length = KYBER_POLYVECBYTES) :
    unpack_pk frombytes (pack_pk tobytes r0 v s) = (v, s) ∧
      unpack_sk frombytes (pack_sk tobytes rsk v) = v := by
  constructor
  · rw [pack_pk_eq tobytes hlen v s r0 hs hr]
    have h1 : frombytes (tobytes v ++ s) = v := hinv v s
    have h2 : (List.range KYBER_SYMBYTES).map
        (fun i => (tobytes v ++ s).getD (i + KYBER_POLYVECBYTES) 0) = s := by
      have hpt : ∀ i : Nat,
          (tobytes v ++ s).getD (i + KYBER_POLYVECBYTES) 0 = s.getD i 0 := by
        intro i
        rw [List.getD_eq_getElem?_getD, List.getD_eq_getElem?_getD,
            List.getElem?_append_right (by rw [hlen]; omega), hlen]
        have hidx : i + KYBER_POLYVECBYTES - KYBER_POLYVECBYTES = i := by omega
        rw [hidx]
      simp only [hpt]
      exact map_getD_range s _ hs
    unfold unpack_pk
    rw [h1, h2]
  · rw [pack_sk_eq tobytes hlen v rsk hrsk]
    unfold unpack_sk
    have h := hinv v []
    rwa [List.append_nil] at h

/-- Witness for C7 with a concrete round-tripping codec (`demoTobytes` /
`demoFrombytes`) on exactly sized zero buffers and the zero vector. -/
theorem pack_unpack_roundtrips_witness :
    unpack_pk demoFrombytes
        (pack_pk demoTobytes (List.replicate (KYBER_POLYVECBYTES + KYBER_SYMBYTES) 0)
          Polyvec.new (List.replicate KYBER_SYMBYTES 0)) =
      (Polyvec.new, List.replicate KYBER_SYMBYTES 0) ∧
      unpack_sk demoFrombytes
        (pack_sk demoTobytes (List.replicate KYBER_POLYVECBYTES 0) Polyvec.new) =
      Polyvec.new :=
  pack_unpack_roundtrips demoTobytes demoFrombytes
    (fun v => by
      show (Encodable.encode v :: List.replicate 767 0).length = KYBER_POLYVECBYTES
      rw [List.length_cons, List.length_replicate]
      rfl)
    (fun v rest => by
      show demoFrombytes ((Encodable.encode v :: List.replicate 767 0) ++ rest) = v
      unfold demoFrombytes
      rw [List.cons_append, List.headD_cons, Encodable.encodek]
      rfl)
    Polyvec.new (List.replicate KYBER_SYMBYTES 0) _ _
    (by rw [List.length_replicate]) (by rw [List.length_replicate])
    (by rw [List.length_replicate])

/-- C8: `indcpa_dec`, sequenced exactly as the source statements, equals
the spec-side composition: the message is the decoding of the reduced
difference between the unpacked `v` and the standard-domain image of the
NTT-domain pointwise accumulation of the secret vector with the unpacked
`b`.  Both sides are total functions of their inputs: decryption always
returns a message, with no failure path. -/
theorem indcpa_dec_matches_spec (pvdec : List Nat → Polyvec)
    (pdec : List Nat → Poly) (polyvec_frombytes : List Nat → Polyvec)
    (polyvec_ntt : Polyvec → Polyvec)
    (polyvec_pointwise_acc : Polyvec → Polyvec → Poly)
    (poly_invntt : Poly → Poly) (poly_sub : Poly → Poly → Poly)
    (poly_reduce : Poly → Poly) (poly_tomsg : Poly → List Nat)
    (c sk : List Nat) :
    indcpa_dec pvdec pdec polyvec_frombytes polyvec_ntt polyvec_pointwise_acc
        poly_invntt poly_sub poly_reduce poly_tomsg c sk =
      indcpa_dec_spec pvdec pdec polyvec_frombytes polyvec_ntt
        polyvec_pointwise_acc poly_invntt poly_sub poly_reduce poly_tomsg c sk :=
  rfl

end Kyber
